import Mathlib

/-!
Verification of the "are-we-attested-yet" report pipeline.

The TypeScript sources contain two nearly identical pipeline variants:
`src/index.mts` (full-document attestation checks) and a version-scoped
variant.  Both share: `fetchWithRetry` (bounded retry with exponential
backoff), `fetchTopNpmPackages` (paginated ranked package lister),
`isSupportedPlatform` (repository URL platform test), a per-package
attestation checker, a fixed-size batch scheduler, and a report builder
with summary statistics.

The shallow embedding below models each of these as pure Lean
functions.  Network responses are passed in as explicit environment
functions (page number to item list; package name and version to an
optional metadata document, with `none` standing for a fetch or parse
error that the code catches).  JavaScript numbers are modelled as exact
rationals extended with NaN and Infinity where division can leave the
finite range.
-/

namespace AWAY

/-- An HTTP response as observed by the code: only `status` and the
derived `ok` flag are consulted.  Per the fetch specification,
`ok` holds iff the status is in the 200-299 range. -/
structure Response where
  status : Nat
  deriving DecidableEq

def Response.ok (r : Response) : Bool := 200 ≤ r.status && r.status < 300

/-- Errors thrown by `fetchWithRetry`: `http s` models the thrown
"HTTP error! status: s", and `unreachable` models the thrown
"Unreachable" after the loop. -/
inductive RetryErr where
  | http (status : Nat)
  | unreachable
  deriving DecidableEq

/-- A `fetchWithRetry` call either returns a response or throws. -/
inductive FetchOutcome where
  | success (r : Response)
  | failure (e : RetryErr)
  deriving DecidableEq

/-- Observable outcome of a `fetchWithRetry` call: the returned response
or thrown error, the list of backoff delays performed (in ms, in order),
and the number of fetch attempts actually issued. -/
structure RetryResult where
  outcome : FetchOutcome
  delays : List Nat
  fetches : Nat
  deriving DecidableEq

/-- The body of the `for (let attempt = 1; attempt <= retries; attempt++)`
loop in `fetchWithRetry`.  `responses n` is the response the network gives
to the n-th attempt (1-indexed).  The fuel argument counts the remaining
loop iterations; it starts at `retries`, so fuel 0 with the loop still
running corresponds to the trailing `throw new Error("Unreachable")`. -/
def retryGo (responses : Nat → Response) (baseDelay retries attempt : Nat) :
    Nat → RetryResult
  | 0 => { outcome := FetchOutcome.failure RetryErr.unreachable, delays := [], fetches := 0 }
  | fuel+1 =>
    let r := responses attempt
    if r.ok then
      { outcome := FetchOutcome.success r, delays := [], fetches := 1 }
    else if 500 ≤ r.status ∧ attempt < retries then
      let rest := retryGo responses baseDelay retries (attempt + 1) fuel
      { outcome := rest.outcome,
        delays := baseDelay * 2 ^ (attempt - 1) :: rest.delays,
        fetches := rest.fetches + 1 }
    else
      { outcome := FetchOutcome.failure (RetryErr.http r.status), delays := [], fetches := 1 }

/-- `fetchWithRetry(url, retries = 3, baseDelay = 1000)`: the response
sequence for the url is abstracted as `responses`. -/
def fetchWithRetry (responses : Nat → Response) (retries baseDelay : Nat) :
    RetryResult :=
  retryGo responses baseDelay retries 1 retries

/-- A source answering 503, 503, then 200. -/
def responses503 : Nat → Response := fun n => if n ≤ 2 then ⟨503⟩ else ⟨200⟩

/-- A source answering 404 always. -/
def responses404 : Nat → Response := fun _ => ⟨404⟩

/-- C1: with the default budget of 3 attempts and base delay 1000ms,
`fetchWithRetry` returns the first ok response; a status ≥ 500 on a
non-final attempt k causes one delay of 1000·2^(k-1) ms and a retry; a
non-ok status below 500, or a status ≥ 500 on the final attempt, raises an
error carrying that status with no further fetches. -/
theorem claim_C1 (responses : Nat → Response) :
    ((responses 1).ok = true →
      fetchWithRetry responses 3 1000 = ⟨FetchOutcome.success (responses 1), [], 1⟩) ∧
    ((responses 1).ok = false → (responses 1).status < 500 →
      fetchWithRetry responses 3 1000 =
        ⟨FetchOutcome.failure (RetryErr.http (responses 1).status), [], 1⟩) ∧
    ((responses 1).ok = false → 500 ≤ (responses 1).status →
      (responses 2).ok = true →
      fetchWithRetry responses 3 1000 = ⟨FetchOutcome.success (responses 2), [1000], 2⟩) ∧
    ((responses 1).ok = false → 500 ≤ (responses 1).status →
      (responses 2).ok = false → (responses 2).status < 500 →
      fetchWithRetry responses 3 1000 =
        ⟨FetchOutcome.failure (RetryErr.http (responses 2).status), [1000], 2⟩) ∧
    ((responses 1).ok = false → 500 ≤ (responses 1).status →
      (responses 2).ok = false → 500 ≤ (responses 2).status →
      (responses 3).ok = true →
      fetchWithRetry responses 3 1000 =
        ⟨FetchOutcome.success (responses 3), [1000, 2000], 3⟩) ∧
    ((responses 1).ok = false → 500 ≤ (responses 1).status →
      (responses 2).ok = false → 500 ≤ (responses 2).status →
      (responses 3).ok = false →
      fetchWithRetry responses 3 1000 =
        ⟨FetchOutcome.failure (RetryErr.http (responses 3).status), [1000, 2000], 3⟩) := by
  refine ⟨?_, ?_, ?_, ?_, ?_, ?_⟩
  · intro h1
    simp [fetchWithRetry, retryGo, h1]
  · intro h1 h2
    simp [fetchWithRetry, retryGo, h1, Nat.not_le.mpr h2]
  · intro h1 h2 h3
    simp [fetchWithRetry, retryGo, h1, h2, h3]
  · intro h1 h2 h3 h4
    simp [fetchWithRetry, retryGo, h1, h2, h3, Nat.not_le.mpr h4]
  · intro h1 h2 h3 h4 h5
    simp [fetchWithRetry, retryGo, h1, h2, h3, h4, h5]
  · intro h1 h2 h3 h4 h5
    simp [fetchWithRetry, retryGo, h1, h2, h3, h4, h5]

/-- C1 witness: 503, 503, 200 succeeds after exactly two delays of 1s and
2s on the 3rd attempt; 404 raises immediately with one fetch and no
delays. -/
theorem claim_C1_witness :
    fetchWithRetry responses503 3 1000 = ⟨FetchOutcome.success ⟨200⟩, [1000, 2000], 3⟩ ∧
    fetchWithRetry responses404 3 1000 =
      ⟨FetchOutcome.failure (RetryErr.http 404), [], 1⟩ := by
  constructor
  · exact (claim_C1 responses503).2.2.2.2.1 (by decide) (by decide) (by decide)
      (by decide) (by decide)
  · exact (claim_C1 responses404).2.1 (by decide) (by decide)

/-- Concatenation of a list of lists, modelling repeated
`allPackages.push(...data)` across loop iterations. -/
def joinAll {α : Type} : List (List α) → List α
  | [] => []
  | l :: ls => l ++ joinAll ls

/-- The page loop of `fetchTopNpmPackages`.  `pages p` is the JSON array
the ranking API returns for page `p`.  The second match argument is the
remaining number of pages (`totalPages - page + 1`); the function
returns the accumulated items and the list of page numbers requested,
in request order.  The loop breaks as soon as a page returns fewer than
`perPage` items. -/
def fetchTopGo {α : Type} (pages : Nat → List α) (perPage : Nat) :
    Nat → Nat → List α × List Nat
  | _, 0 => ([], [])
  | page, fuel+1 =>
    let data := pages page
    if data.length < perPage then (data, [page])
    else
      let rest := fetchTopGo pages perPage (page + 1) fuel
      (data ++ rest.1, page :: rest.2)

/-- `fetchTopNpmPackages(limit)`: pages of size 100 across
`Math.ceil(limit / 100)` requests starting at page 1, with the result
truncated by `allPackages.slice(0, limit)`.  Returns the item list and
the pages requested. -/
def fetchTopNpmPackages {α : Type} (pages : Nat → List α) (limit : Nat) :
    List α × List Nat :=
  ((fetchTopGo pages 100 1 ((limit + 100 - 1) / 100)).1.take limit,
   (fetchTopGo pages 100 1 ((limit + 100 - 1) / 100)).2)

/-- Characterization of the page loop: at most `fuel` requests, pages
requested consecutively from the start page, every non-final requested
page was full, and the accumulated items are the concatenation of the
requested pages in order. -/
theorem fetchTopGo_spec {α : Type} (pages : Nat → List α) (pp : Nat) :
    ∀ fuel page,
      (fetchTopGo pages pp page fuel).2.length ≤ fuel ∧
      (fetchTopGo pages pp page fuel).2
        = List.range' page (fetchTopGo pages pp page fuel).2.length ∧
      (∀ p ∈ (fetchTopGo pages pp page fuel).2.dropLast, pp ≤ (pages p).length) ∧
      (fetchTopGo pages pp page fuel).1
        = joinAll ((fetchTopGo pages pp page fuel).2.map pages) := by
  intro fuel
  induction fuel with
  | zero => intro page; simp [fetchTopGo, joinAll]
  | succ n ih =>
    intro page
    by_cases h : (pages page).length < pp
    · simp [fetchTopGo, h, joinAll, List.range']
    · obtain ⟨ih1, ih2, ih3, ih4⟩ := ih (page + 1)
      simp only [fetchTopGo, if_neg h]
      refine ⟨by simpa using Nat.succ_le_succ ih1, ?_, ?_, ?_⟩
      · simp only [List.length_cons, List.range']
        exact congrArg (page :: ·) ih2
      · intro p hp
        rcases hq : (fetchTopGo pages pp (page + 1) n).2 with _ | ⟨q, qs⟩
        · simp [hq] at hp
        · rw [hq] at hp
          simp only [List.dropLast_cons₂, List.mem_cons] at hp
          rcases hp with rfl | hp
          · exact Nat.le_of_not_lt h
          · exact ih3 p (by rw [hq]; simpa using hp)
      · simp only [List.map_cons, joinAll]
        exact congrArg ((pages page) ++ ·) ih4

/-- A ranking source with four full pages of 100 items and a fifth page
of 42 items. -/
def pagesEx : Nat → List String :=
  fun p =>
    if p ≤ 4 then List.replicate 100 "x"
    else if p = 5 then List.replicate 42 "y" else []

/-- C3: for a target count N ≥ 1, `fetchTopNpmPackages` issues at most
ceil(N/100) page requests, in increasing page order starting from 1,
every page requested before the last returned a full 100 items (so the
loop stops as soon as a short page appears), and the result is the
concatenation of the requested pages truncated to at most N items,
preserving the order received. -/
theorem claim_C3 (pages : Nat → List String) (N : Nat) (hN : 1 ≤ N) :
    (fetchTopNpmPackages pages N).2.length ≤ (N + 99) / 100 ∧
    (fetchTopNpmPackages pages N).2
      = List.range' 1 (fetchTopNpmPackages pages N).2.length ∧
    (∀ p ∈ (fetchTopNpmPackages pages N).2.dropLast, 100 ≤ (pages p).length) ∧
    (fetchTopNpmPackages pages N).1
      = (joinAll ((fetchTopNpmPackages pages N).2.map pages)).take N ∧
    (fetchTopNpmPackages pages N).1.length ≤ N := by
  obtain ⟨h1, h2, h3, h4⟩ := fetchTopGo_spec pages 100 ((N + 100 - 1) / 100) 1
  refine ⟨?_, h2, h3, ?_, ?_⟩
  · have e : N + 100 - 1 = N + 99 := by omega
    simpa [fetchTopNpmPackages, e] using h1
  · simp only [fetchTopNpmPackages]
    exact congrArg (List.take N) h4
  · simp only [fetchTopNpmPackages, List.length_take]
    exact Nat.min_le_left _ _

set_option maxRecDepth 40000 in
/-- C3 witness: with pages of 100, 100, 100, 100, 42 items and N = 500,
exactly 442 items are returned, the requested pages are 1..5, and the
request count is within the ceil(500/100) = 5 budget. -/
theorem claim_C3_witness :
    (fetchTopNpmPackages pagesEx 500).1.length = 442 ∧
    (fetchTopNpmPackages pagesEx 500).2 = [1, 2, 3, 4, 5] ∧
    (fetchTopNpmPackages pagesEx 500).2.length ≤ (500 + 99) / 100 := by
  refine ⟨by decide, by decide, (claim_C3 pagesEx 500 (by decide)).1⟩

/-- The per-package record built by either attestation checker, shared
by both pipeline variants.  All fields are strings; absent upstream
values are normalized to the empty string. -/
structure AttestationResult where
  name : String
  version : String
  lastUploaded : String
  attestationsUrl : String
  trustedPublisherId : String
  repositoryUrl : String
  deriving DecidableEq

/-- The fixed batch size of the scheduling loop in `main`. -/
def batchSize : Nat := 10

/-- Fuel-indexed helper for `batchesOf`: the fuel starts at the list
length and strictly bounds the remaining iterations, making the
recursion structural (and hence kernel-computable). -/
def batchesGo {α : Type} (size : Nat) : Nat → List α → List (List α)
  | 0, _ => []
  | _, [] => []
  | fuel+1, x :: xs => ((x :: xs).take size) :: batchesGo size fuel (xs.drop (size - 1))

/-- The consecutive batches `packageNames.slice(i, i + batchSize)` taken
by the loop `for (let i = 0; i < n; i += batchSize)`. -/
def batchesOf {α : Type} (size : Nat) (l : List α) : List (List α) :=
  batchesGo size l.length l

/-- The results collected by the batch loop: each batch is mapped
through the checker (one call per member, `Promise.all` keeping batch
order), nulls are filtered out, and the surviving records are appended
across batches in order. -/
def scheduleResults {α : Type} (checker : α → Option AttestationResult)
    (l : List α) : List AttestationResult :=
  joinAll ((batchesOf batchSize l).map (fun b => (b.map checker).filterMap id))

/-- Fuel-indexed helper for `lengthChunks`. -/
def chunksGo (size : Nat) : Nat → Nat → List Nat
  | 0, _ => []
  | _, 0 => []
  | fuel+1, n+1 => min size (n + 1) :: chunksGo size fuel (n - (size - 1))

/-- The batch length profile as a function of the input length only. -/
def lengthChunks (size n : Nat) : List Nat :=
  chunksGo size n n

/-- The fuelled batch splitter concatenates back to the input list
whenever the fuel covers the list length. -/
theorem batchesGo_join {α : Type} (size : Nat) (hs : 0 < size) :
    ∀ (fuel : Nat) (l : List α), l.length ≤ fuel →
      joinAll (batchesGo size fuel l) = l := by
  intro fuel
  induction fuel with
  | zero =>
    intro l hl
    rw [List.length_eq_zero.mp (Nat.le_zero.mp hl)]
    simp [batchesGo, joinAll]
  | succ n ih =>
    intro l hl
    cases l with
    | nil => simp [batchesGo, joinAll]
    | cons x xs =>
      simp only [batchesGo, joinAll]
      rw [ih (xs.drop (size - 1)) (by simp [List.length_drop] at hl ⊢; omega)]
      obtain ⟨k, rfl⟩ : ∃ k, size = k + 1 := ⟨size - 1, by omega⟩
      simp [List.take_succ_cons]

/-- The batches of a positive batch size concatenate back to the input
list: each package appears in exactly one batch, in input order. -/
theorem batchesOf_join {α : Type} (size : Nat) (hs : 0 < size) :
    ∀ l : List α, joinAll (batchesOf size l) = l := by
  intro l
  exact batchesGo_join size hs l.length l (Nat.le_refl _)

/-- Fuelled version: the batch length profile depends only on the
input length. -/
theorem batchesGo_map_length {α : Type} (size : Nat) :
    ∀ (fuel : Nat) (l : List α),
      (batchesGo size fuel l).map List.length = chunksGo size fuel l.length := by
  intro fuel
  induction fuel with
  | zero => intro l; simp [batchesGo, chunksGo]
  | succ n ih =>
    intro l
    cases l with
    | nil => simp [batchesGo, chunksGo]
    | cons x xs =>
      simp only [batchesGo, List.map_cons, List.length_cons, chunksGo]
      rw [ih (xs.drop (size - 1))]
      simp [List.length_take, List.length_drop]

/-- The batch length profile depends only on the input length. -/
theorem batchesOf_map_length {α : Type} (size : Nat) :
    ∀ l : List α, (batchesOf size l).map List.length = lengthChunks size l.length := by
  intro l
  exact batchesGo_map_length size l.length l

/-- Every entry of the batch length profile is at most the batch size. -/
theorem chunksGo_le (size : Nat) :
    ∀ fuel n, ∀ x ∈ chunksGo size fuel n, x ≤ size := by
  intro fuel
  induction fuel with
  | zero => intro n x hx; simp [chunksGo] at hx
  | succ m ih =>
    intro n x hx
    cases n with
    | zero => simp [chunksGo] at hx
    | succ k =>
      simp only [chunksGo, List.mem_cons] at hx
      rcases hx with rfl | hx
      · exact Nat.min_le_left _ _
      · exact ih (k - (size - 1)) x hx

/-- Every entry of the batch length profile is at most the batch size. -/
theorem lengthChunks_le (size : Nat) :
    ∀ n, ∀ x ∈ lengthChunks size n, x ≤ size := by
  intro n
  exact chunksGo_le size n n

/-- A nonempty chunk profile means a nonzero remaining length. -/
theorem chunksGo_ne_nil {size fuel n : Nat} {q : Nat} {qs : List Nat}
    (h : chunksGo size fuel n = q :: qs) : n ≠ 0 := by
  intro h0
  cases fuel <;> simp [chunksGo, h0] at h

/-- Every entry of the batch length profile except possibly the last is
exactly the batch size (fuelled version; the fuel must cover the
remaining length). -/
theorem chunksGo_dropLast (size : Nat) :
    ∀ fuel n, n ≤ fuel → ∀ x ∈ (chunksGo size fuel n).dropLast, x = size := by
  intro fuel
  induction fuel with
  | zero =>
    intro n hn
    rw [Nat.le_zero.mp hn]
    simp [chunksGo]
  | succ m ih =>
    intro n hn x hx
    cases n with
    | zero => simp [chunksGo] at hx
    | succ k =>
      simp only [chunksGo] at hx
      rcases hq : chunksGo size m (k - (size - 1)) with _ | ⟨q, qs⟩
      · rw [hq] at hx
        simp at hx
      · rw [hq] at hx
        simp only [List.dropLast_cons₂, List.mem_cons] at hx
        have hk : k - (size - 1) ≠ 0 := chunksGo_ne_nil hq
        rcases hx with rfl | hx
        · have : size ≤ k + 1 := by omega
          exact Nat.min_eq_left this
        · exact ih (k - (size - 1)) (by omega) x (by rw [hq]; simpa using hx)

/-- Every entry of the batch length profile except possibly the last is
exactly the batch size. -/
theorem lengthChunks_dropLast (size : Nat) :
    ∀ n, ∀ x ∈ (lengthChunks size n).dropLast, x = size := by
  intro n
  exact chunksGo_dropLast size n n (Nat.le_refl _)

/-- Filtering nulls per batch and concatenating is the same as
filtering over the concatenation of the batches. -/
theorem joinAll_filterMap {α β : Type} (c : α → Option β) :
    ∀ bs : List (List α),
      joinAll (bs.map (fun b => (b.map c).filterMap id)) = (joinAll bs).filterMap c := by
  intro bs
  induction bs with
  | nil => simp [joinAll]
  | cons b bs ih =>
    simp only [List.map_cons, joinAll, List.filterMap_append, ih]
    congr 1
    simp [List.filterMap_map]

/-- The batch loop collects exactly the non-null checker results, in
input order. -/
theorem scheduleResults_eq_filterMap {α : Type}
    (checker : α → Option AttestationResult) (l : List α) :
    scheduleResults checker l = l.filterMap checker := by
  unfold scheduleResults
  rw [joinAll_filterMap, batchesOf_join batchSize (by decide)]

/-- A checker used for concrete examples: even inputs yield a record,
odd inputs yield no record. -/
def checkerEx : Nat → Option AttestationResult :=
  fun n =>
    if n % 2 = 0 then some ⟨toString n, "1.0.0", "", "", "", ""⟩ else none

/-- C2: the scheduling loop partitions the input into consecutive
order-preserving batches of size 10 (the last possibly smaller), calls
the checker once per package (the batches concatenate back to the
input), collects each batch's non-null results in order so the output
is the input's filterMap (order of successful packages preserved and a
null member never blocks its batch), and 25 refs give batch sizes
10, 10, 5. -/
theorem claim_C2 {α : Type} (l : List α)
    (checker : α → Option AttestationResult) :
    joinAll (batchesOf batchSize l) = l ∧
    (∀ b ∈ batchesOf batchSize l, b.length ≤ batchSize) ∧
    (∀ b ∈ (batchesOf batchSize l).dropLast, b.length = batchSize) ∧
    scheduleResults checker l = l.filterMap checker ∧
    (l.length = 25 → (batchesOf batchSize l).map List.length = [10, 10, 5]) := by
  refine ⟨batchesOf_join batchSize (by decide) l, ?_, ?_, scheduleResults_eq_filterMap checker l, ?_⟩
  · intro b hb
    have : b.length ∈ (batchesOf batchSize l).map List.length :=
      List.mem_map_of_mem List.length hb
    rw [batchesOf_map_length] at this
    exact lengthChunks_le batchSize l.length b.length this
  · intro b hb
    have : b.length ∈ ((batchesOf batchSize l).dropLast).map List.length :=
      List.mem_map_of_mem List.length hb
    rw [List.map_dropLast, batchesOf_map_length] at this
    exact lengthChunks_dropLast batchSize l.length b.length this
  · intro h25
    rw [batchesOf_map_length, h25]
    decide

/-- C2 witness: for the 25 refs 0..24 and the example checker, the
batches have sizes 10, 10, 5 and the collected results are exactly the
non-null results in input order. -/
theorem claim_C2_witness :
    (batchesOf batchSize (List.range 25)).map List.length = [10, 10, 5] ∧
    scheduleResults checkerEx (List.range 25)
      = (List.range 25).filterMap checkerEx := by
  exact ⟨(claim_C2 (List.range 25) checkerEx).2.2.2.2 (by decide),
         (claim_C2 (List.range 25) checkerEx).2.2.2.1⟩

/-- Does `pat` occur as a prefix of `s`?  (Character-by-character,
mirroring a direct substring comparison.) -/
def startsWithChars (pat s : List Char) : Bool :=
  match pat, s with
  | [], _ => true
  | _ :: _, [] => false
  | p :: ps, c :: cs => p == c && startsWithChars ps cs

/-- Does `pat` occur as a contiguous substring of `s`?  Models
JavaScript `String.prototype.includes`. -/
def hasSubChars (pat : List Char) : List Char → Bool
  | [] => pat.isEmpty
  | c :: cs => startsWithChars pat (c :: cs) || hasSubChars pat cs

/-- Strip a leading occurrence of `pre`, modelling
`replace(/^git\x5c+/, "")`-style anchored prefix removal. -/
def stripLeading (pre s : List Char) : List Char :=
  if startsWithChars pre s then s.drop pre.length else s

/-- Does `suf` occur as a suffix of `s`? -/
def endsWithChars (suf s : List Char) : Bool :=
  startsWithChars suf.reverse s.reverse

/-- Strip a trailing occurrence of `suf`, modelling
`replace(/\x5c.git$/, "")`-style anchored suffix removal. -/
def stripTrailing (suf s : List Char) : List Char :=
  if endsWithChars suf s then s.take (s.length - suf.length) else s

/-- `isSupportedPlatform(repositoryUrl)`: false on the empty (falsy)
string; otherwise lowercase the URL, strip a leading "git+" and a
trailing ".git", and test whether the result contains "github.com" or
"gitlab.com".  (JavaScript `toLowerCase` agrees with per-character
ASCII lowering on the ASCII URLs at issue.) -/
def isSupportedPlatform (repositoryUrl : String) : Bool :=
  if repositoryUrl.data.isEmpty then false
  else
    let url := repositoryUrl.data.map Char.toLower
    let cleanUrl := stripTrailing ".git".data (stripLeading "git+".data url)
    hasSubChars "github.com".data cleanUrl || hasSubChars "gitlab.com".data cleanUrl

/-- The claim C7 predicate, following the claim's words literally: the
URL, after stripping a leading "git+" prefix and a trailing ".git"
suffix (with no lowercasing step), contains "github.com" or
"gitlab.com". -/
def claimC7Contains (repositoryUrl : String) : Bool :=
  let cleanUrl := stripTrailing ".git".data (stripLeading "git+".data repositoryUrl.data)
  hasSubChars "github.com".data cleanUrl || hasSubChars "gitlab.com".data cleanUrl

/-- The amended C7 predicate: same, but the URL is lowercased first,
matching the `toLowerCase()` call in the source. -/
def claimC7ContainsLower (repositoryUrl : String) : Bool :=
  claimC7Contains (String.mk (repositoryUrl.data.map Char.toLower))

/-- C7 counterexample: on an uppercase GitHub URL the function returns
true (the code lowercases before matching), while the claim's
case-sensitive containment test is false, so the claimed equivalence
fails at this input. -/
theorem claim_C7_counterexample :
    isSupportedPlatform "HTTPS://GITHUB.COM/FOO" = true ∧
    claimC7Contains "HTTPS://GITHUB.COM/FOO" = false := by
  constructor <;> decide

/-- An empty pattern never occurs below; auxiliary: `hasSubChars` of a
nonempty pattern over the empty string is false. -/
theorem hasSubChars_nil (p : Char) (ps : List Char) :
    hasSubChars (p :: ps) [] = false := rfl

/-- C7 (amended): `isSupportedPlatform` returns true iff the lowercased
URL, after stripping a leading "git+" prefix and a trailing ".git"
suffix, contains "github.com" or "gitlab.com"; in particular it is true
on "git+https://github.com/foo/bar.git", false on "", and false on
"https://example.com/foo". -/
theorem claim_C7_amended (repositoryUrl : String) :
    (isSupportedPlatform repositoryUrl = claimC7ContainsLower repositoryUrl) ∧
    isSupportedPlatform "git+https://github.com/foo/bar.git" = true ∧
    isSupportedPlatform "" = false ∧
    isSupportedPlatform "https://example.com/foo" = false := by
  refine ⟨?_, by decide, by decide, by decide⟩
  by_cases h : repositoryUrl.data.isEmpty
  · have hd : repositoryUrl.data = [] := by
      cases hc : repositoryUrl.data with
      | nil => rfl
      | cons c cs => rw [hc] at h; simp [List.isEmpty] at h
    simp [isSupportedPlatform, claimC7ContainsLower, claimC7Contains, h, hd,
      stripLeading, stripTrailing, startsWithChars, endsWithChars, hasSubChars,
      List.isEmpty]
  · simp [isSupportedPlatform, claimC7ContainsLower, claimC7Contains, h]

/-- JavaScript string falsiness for an optional string field: null,
undefined and the empty string are falsy. -/
def jsFalsyStr : Option String → Bool
  | none => true
  | some s => s.data.isEmpty

/-- The idiom `x || ""`: an absent (or empty) value becomes the empty
string; any other string passes through. -/
def jsOrEmpty : Option String → String
  | none => ""
  | some s => s

/-- A ranking API item (version-scoped variant): denormalized name,
repository URL, latest version and publish timestamp, each possibly
null. -/
structure EcosystemsPackage where
  name : String
  repository_url : Option String
  latest_release_number : Option String
  latest_release_published_at : Option String
  deriving DecidableEq

/-- `dist.attestations` of a version document. -/
structure NpmAttestations where
  url : String
  deriving DecidableEq

/-- `dist` of a version document; the attestations entry may be
absent. -/
structure NpmDist where
  attestations : Option NpmAttestations
  deriving DecidableEq

/-- `_npmUser.trustedPublisher` of a version document. -/
structure TrustedPublisher where
  id : String
  deriving DecidableEq

/-- `_npmUser` of a version document (field renamed from `_npmUser`
to `npmUser`). -/
structure NpmUser where
  trustedPublisher : Option TrustedPublisher
  deriving DecidableEq

/-- A version-scoped registry metadata document. -/
structure NpmVersionMetadata where
  dist : Option NpmDist
  npmUser : Option NpmUser
  deriving DecidableEq

/-- `dist-tags` of a full package document. -/
structure DistTags where
  latest : String
  deriving DecidableEq

/-- `repository` of a full package document. -/
structure Repository where
  type : String
  url : String
  deriving DecidableEq

/-- A full package metadata document: the `dist-tags` pointer (read
with optional chaining, so modelled as optional), the optional `time`
map, the optional `repository`, and the version map (an association
list, since JSON objects are finite string maps). -/
structure NpmPackageMetadata where
  distTags : Option DistTags
  time : Option (List (String × String))
  repository : Option Repository
  versions : List (String × NpmVersionMetadata)
  deriving DecidableEq

/-- The version-scoped `fetchPackageAttestation` (variant taking an
`EcosystemsPackage`).  `fetchDoc name version` is the parsed response of
`GET registry.npmjs.org/name/version`, with `none` for a fetch or parse
error (caught and converted to null).  A falsy latest version yields a
partial record rather than null. -/
def fetchPackageAttestationV
    (fetchDoc : String → String → Option NpmVersionMetadata)
    (pkg : EcosystemsPackage) : Option AttestationResult :=
  if jsFalsyStr pkg.latest_release_number then
    some { name := pkg.name
           version := ""
           lastUploaded := jsOrEmpty pkg.latest_release_published_at
           attestationsUrl := ""
           trustedPublisherId := ""
           repositoryUrl := jsOrEmpty pkg.repository_url }
  else
    let v := pkg.latest_release_number.getD ""
    match fetchDoc pkg.name v with
    | none => none
    | some versionData =>
      some { name := pkg.name
             version := v
             lastUploaded := jsOrEmpty pkg.latest_release_published_at
             attestationsUrl :=
               jsOrEmpty ((versionData.dist.bind NpmDist.attestations).map NpmAttestations.url)
             trustedPublisherId :=
               jsOrEmpty ((versionData.npmUser.bind NpmUser.trustedPublisher).map TrustedPublisher.id)
             repositoryUrl := jsOrEmpty pkg.repository_url }

/-- The full-document `fetchPackageAttestation` (variant taking a
package name).  `fetchFull name` is the parsed response of
`GET registry.npmjs.org/name`, with `none` for a fetch or parse error
(caught and converted to null).  A missing or falsy `dist-tags.latest`,
or a version map without that entry, yields null: the package is
dropped. -/
def fetchPackageAttestationFull
    (fetchFull : String → Option NpmPackageMetadata)
    (packageName : String) : Option AttestationResult :=
  match fetchFull packageName with
  | none => none
  | some metadata =>
    match metadata.distTags with
    | none => none
    | some dt =>
      if dt.latest.data.isEmpty then none
      else
        match metadata.versions.lookup dt.latest with
        | none => none
        | some versionData =>
          some { name := packageName
                 version := dt.latest
                 lastUploaded := jsOrEmpty ((metadata.time.getD []).lookup dt.latest)
                 attestationsUrl :=
                   jsOrEmpty ((versionData.dist.bind NpmDist.attestations).map NpmAttestations.url)
                 trustedPublisherId :=
                   jsOrEmpty ((versionData.npmUser.bind NpmUser.trustedPublisher).map TrustedPublisher.id)
                 repositoryUrl := jsOrEmpty (metadata.repository.map Repository.url) }

/-- A JavaScript number as produced by the statistics computation:
an exact rational, or NaN, or Infinity (division can leave the finite
range; the sources here never produce negative values). -/
inductive JsNum where
  | nan
  | inf
  | fin (q : ℚ)
  deriving DecidableEq

/-- JavaScript division of two nonnegative integers: `0 / 0` is NaN,
`k / 0` for nonzero `k` is Infinity, otherwise the exact quotient. -/
def jsDivNat (k n : Nat) : JsNum :=
  if n = 0 then (if k = 0 then JsNum.nan else JsNum.inf)
  else JsNum.fin ((k : ℚ) / (n : ℚ))

/-- `toFixed(1)` followed by `parseFloat`, on a finite value: round to
one decimal place, ties away from zero (the ECMAScript `toFixed`
rule picks the larger candidate on ties). -/
def toFixed1 (q : ℚ) : ℚ := ((⌊q * 10 + 1 / 2⌋ : ℤ) : ℚ) / 10

/-- `parseFloat(((k / n) * 100).toFixed(1))`: NaN and Infinity pass
through `toFixed`/`parseFloat` unchanged ("NaN" and "Infinity"). -/
def attestationPercentage (k n : Nat) : JsNum :=
  match jsDivNat k n with
  | JsNum.nan => JsNum.nan
  | JsNum.inf => JsNum.inf
  | JsNum.fin q => JsNum.fin (toFixed1 (q * 100))

/-- One entry of the report's `packages` array. -/
structure ReportEntry where
  rank : Nat
  package : String
  version : String
  lastUploaded : String
  attestationsUrl : String
  trustedPublisherId : String
  repositoryUrl : String
  isSupportedPlatform : Bool
  deriving DecidableEq

/-- The per-record entry constructor used by
`attestationResults.map((result, index) => ...)`; `i` is the 0-based
index, so `rank = i + 1`. -/
def mkEntry (i : Nat) (r : AttestationResult) : ReportEntry :=
  { rank := i + 1
    package := r.name
    version := r.version
    lastUploaded := r.lastUploaded
    attestationsUrl := r.attestationsUrl
    trustedPublisherId := r.trustedPublisherId
    repositoryUrl := r.repositoryUrl
    isSupportedPlatform := isSupportedPlatform r.repositoryUrl }

/-- The index-carrying map over the attestation results. -/
def buildPackagesGo (i : Nat) : List AttestationResult → List ReportEntry
  | [] => []
  | r :: rs => mkEntry i r :: buildPackagesGo (i + 1) rs

/-- The report's `summary` object. -/
structure ReportSummary where
  total_packages : Nat
  packages_with_attestations : Nat
  attestation_percentage : JsNum
  deriving DecidableEq

/-- The report minus its generation timestamp. -/
structure Report where
  summary : ReportSummary
  packages : List ReportEntry
  deriving DecidableEq

/-- The full report artifact, including `generated_at`. -/
structure FullReport where
  generated_at : String
  summary : ReportSummary
  packages : List ReportEntry
  deriving DecidableEq

/-- The report construction in `main`: map the collected records to
ranked entries, count them, count those with a non-empty
`attestationsUrl`, and compute the percentage. -/
def buildReport (results : List AttestationResult) : Report :=
  let packages := buildPackagesGo 0 results
  let totalPackages := packages.length
  let packagesWithAttestations :=
    (packages.filter (fun p => !(p.attestationsUrl == ""))).length
  { summary :=
      { total_packages := totalPackages
        packages_with_attestations := packagesWithAttestations
        attestation_percentage :=
          attestationPercentage packagesWithAttestations totalPackages }
    packages := packages }

/-- The full report with its `new Date().toISOString()` timestamp,
passed in as `now`. -/
def buildFullReport (now : String) (results : List AttestationResult) :
    FullReport :=
  { generated_at := now
    summary := (buildReport results).summary
    packages := (buildReport results).packages }

/-- `buildPackagesGo` preserves the record count. -/
theorem buildPackagesGo_length :
    ∀ (results : List AttestationResult) (i : Nat),
      (buildPackagesGo i results).length = results.length := by
  intro results
  induction results with
  | nil => intro i; rfl
  | cons r rs ih => intro i; simp [buildPackagesGo, ih]

/-- The entry at 0-based position `k` (building from index `i`) has
rank `i + k + 1`. -/
theorem buildPackagesGo_get_rank :
    ∀ (results : List AttestationResult) (i k : Nat)
      (h : k < (buildPackagesGo i results).length),
      ((buildPackagesGo i results).get ⟨k, h⟩).rank = i + k + 1 := by
  intro results
  induction results with
  | nil => intro i k h; simp [buildPackagesGo] at h
  | cons r rs ih =>
    intro i k h
    cases k with
    | zero => simp [buildPackagesGo, mkEntry]
    | succ k =>
      have := ih (i + 1) k (by simpa [buildPackagesGo] using h)
      simp only [buildPackagesGo, List.get_cons_succ]
      omega

/-- The entries' package names are the records' names, in order. -/
theorem buildPackagesGo_map_package :
    ∀ (results : List AttestationResult) (i : Nat),
      (buildPackagesGo i results).map ReportEntry.package
        = results.map AttestationResult.name := by
  intro results
  induction results with
  | nil => intro i; rfl
  | cons r rs ih => intro i; simp [buildPackagesGo, mkEntry, ih]

/-- Counting entries with non-empty attestation URL equals counting the
records with non-empty attestation URL. -/
theorem buildPackagesGo_filter_count :
    ∀ (results : List AttestationResult) (i : Nat),
      ((buildPackagesGo i results).filter (fun p => !(p.attestationsUrl == ""))).length
        = (results.filter (fun r => !(r.attestationsUrl == ""))).length := by
  intro results
  induction results with
  | nil => intro i; rfl
  | cons r rs ih =>
    intro i
    simp only [buildPackagesGo, List.filter_cons]
    cases hb : (!(r.attestationsUrl == "")) <;>
      simp [mkEntry, hb, ih]

/-- Every report entry's string fields come verbatim from some collected
record. -/
theorem buildPackagesGo_mem :
    ∀ (results : List AttestationResult) (i : Nat) (p : ReportEntry),
      p ∈ buildPackagesGo i results →
      ∃ r, r ∈ results ∧ p.package = r.name ∧ p.version = r.version ∧
        p.lastUploaded = r.lastUploaded ∧ p.attestationsUrl = r.attestationsUrl ∧
        p.trustedPublisherId = r.trustedPublisherId ∧
        p.repositoryUrl = r.repositoryUrl := by
  intro results
  induction results with
  | nil => intro i p hp; simp [buildPackagesGo] at hp
  | cons r rs ih =>
    intro i p hp
    rcases List.mem_cons.mp hp with rfl | hp
    · exact ⟨r, List.mem_cons_self r rs, rfl, rfl, rfl, rfl, rfl, rfl⟩
    · obtain ⟨r', hr', hfields⟩ := ih (i + 1) p hp
      exact ⟨r', List.mem_cons_of_mem r hr', hfields⟩

/-- C4: the version-scoped checker, on a reference with no known latest
version, returns a partial record (never null) with empty version,
attestation URL and trusted-publisher id but the known last-published
timestamp and repository URL preserved; the full-document checker
returns null whenever `dist-tags.latest` is missing (or falsy) or the
version map lacks that entry. -/
theorem claim_C4 :
    (∀ (fetchDoc : String → String → Option NpmVersionMetadata)
       (pkg : EcosystemsPackage),
      jsFalsyStr pkg.latest_release_number = true →
      fetchPackageAttestationV fetchDoc pkg =
        some { name := pkg.name
               version := ""
               lastUploaded := jsOrEmpty pkg.latest_release_published_at
               attestationsUrl := ""
               trustedPublisherId := ""
               repositoryUrl := jsOrEmpty pkg.repository_url }) ∧
    (∀ (fetchFull : String → Option NpmPackageMetadata)
       (packageName : String) (metadata : NpmPackageMetadata),
      fetchFull packageName = some metadata →
      (metadata.distTags = none ∨
        (∃ dt, metadata.distTags = some dt ∧
          (dt.latest.data.isEmpty = true ∨
            metadata.versions.lookup dt.latest = none))) →
      fetchPackageAttestationFull fetchFull packageName = none) := by
  constructor
  · intro fetchDoc pkg h
    simp [fetchPackageAttestationV, h]
  · intro fetchFull packageName metadata hfetch hmiss
    simp only [fetchPackageAttestationFull, hfetch]
    rcases hmiss with hdt | ⟨dt, hdt, hcase⟩
    · simp [hdt]
    · rcases hcase with hempty | hlook
      · simp [hdt, hempty]
      · simp [hdt, hlook]

/-- A package reference with no known latest version. -/
def pkgNoVer : EcosystemsPackage :=
  { name := "left-pad"
    repository_url := some "https://github.com/left-pad/left-pad"
    latest_release_number := none
    latest_release_published_at := some "2018-04-10T00:00:00.000Z" }

/-- A version fetcher that always errors (never consulted for
`pkgNoVer`). -/
def fetchDocNone : String → String → Option NpmVersionMetadata :=
  fun _ _ => none

/-- A full document with no `dist-tags`. -/
def docNoLatest : NpmPackageMetadata :=
  { distTags := none, time := none, repository := none, versions := [] }

/-- A full-document fetcher returning `docNoLatest`. -/
def fetchFullEx : String → Option NpmPackageMetadata := fun _ => some docNoLatest

/-- C4 witness: the version-scoped checker on `pkgNoVer` returns the
partial record with the timestamp and repository URL preserved; the
full-document checker on a document without `dist-tags` returns
null. -/
theorem claim_C4_witness :
    fetchPackageAttestationV fetchDocNone pkgNoVer =
      some { name := "left-pad"
             version := ""
             lastUploaded := "2018-04-10T00:00:00.000Z"
             attestationsUrl := ""
             trustedPublisherId := ""
             repositoryUrl := "https://github.com/left-pad/left-pad" } ∧
    fetchPackageAttestationFull fetchFullEx "left-pad" = none := by
  constructor
  · exact claim_C4.1 fetchDocNone pkgNoVer (by decide)
  · exact claim_C4.2 fetchFullEx "left-pad" docNoLatest rfl (Or.inl rfl)

/-- C5: for a non-empty record list, the summary's total is the record
count, the attestation count is the number of records with non-empty
`attestationsUrl`, and the percentage is count/total·100 rounded to one
decimal place. -/
theorem claim_C5 (results : List AttestationResult) (h : results ≠ []) :
    (buildReport results).summary.total_packages = results.length ∧
    (buildReport results).summary.packages_with_attestations
      = (results.filter (fun r => !(r.attestationsUrl == ""))).length ∧
    (buildReport results).summary.attestation_percentage
      = JsNum.fin (toFixed1
          (((results.filter (fun r => !(r.attestationsUrl == ""))).length : ℚ)
            / (results.length : ℚ) * 100)) := by
  have hn : results.length ≠ 0 := by
    intro h0
    exact h (List.length_eq_zero.mp h0)
  refine ⟨?_, ?_, ?_⟩
  · simp [buildReport, buildPackagesGo_length]
  · simp [buildReport, buildPackagesGo_filter_count]
  · simp only [buildReport, buildPackagesGo_length, buildPackagesGo_filter_count,
      attestationPercentage, jsDivNat, hn, if_false]

/-- A record with an attestation URL. -/
def recWithAtt : AttestationResult :=
  { name := "a", version := "1.0.0", lastUploaded := ""
    attestationsUrl := "https://registry.npmjs.org/-/npm/v1/attestations/a@1.0.0"
    trustedPublisherId := "", repositoryUrl := "" }

/-- A record without an attestation URL. -/
def recNoAtt : AttestationResult :=
  { name := "b", version := "1.0.0", lastUploaded := ""
    attestationsUrl := "", trustedPublisherId := "", repositoryUrl := "" }

/-- Three records with attestations out of seven. -/
def ex7 : List AttestationResult :=
  [recWithAtt, recWithAtt, recWithAtt, recNoAtt, recNoAtt, recNoAtt, recNoAtt]

/-- C5 witness: 3 attestations out of 7 packages gives exactly 42.9. -/
theorem claim_C5_witness :
    (buildReport ex7).summary.attestation_percentage
      = JsNum.fin (429 / 10) := by
  have h := (claim_C5 ex7 (by decide)).2.2
  rw [h,
    show (ex7.filter (fun r => !(r.attestationsUrl == ""))).length = 3 from rfl,
    show ex7.length = 7 from rfl]
  norm_num [toFixed1]

/-- C10: when the collected record list is empty the report is still
constructed, with zero totals, an empty packages array, and a NaN
percentage, because 0/0 is not guarded. -/
theorem claim_C10 (now : String) :
    buildFullReport now [] =
      { generated_at := now
        summary := { total_packages := 0
                     packages_with_attestations := 0
                     attestation_percentage := JsNum.nan }
        packages := [] } := rfl

/-- If the checker preserves names, the surviving names form a
subsequence of the input names. -/
theorem filterMap_name_sublist {α : Type} (c : α → Option AttestationResult)
    (f : α → String) (hp : ∀ x r, c x = some r → r.name = f x) :
    ∀ l : List α,
      List.Sublist ((l.filterMap c).map AttestationResult.name) (l.map f) := by
  intro l
  induction l with
  | nil => simp
  | cons x xs ih =>
    cases hc : c x with
    | none =>
      simp only [List.filterMap_cons, hc, List.map_cons]
      exact List.Sublist.cons (f x) ih
    | some r =>
      simp only [List.filterMap_cons, hc, List.map_cons]
      rw [hp x r hc]
      exact List.Sublist.cons₂ (f x) ih

/-- A checker that returns a record only for package "b". -/
def exChecker6 : String → Option AttestationResult :=
  fun s =>
    if s == "b" then
      some { name := "b", version := "1.0.0", lastUploaded := ""
             attestationsUrl := "", trustedPublisherId := "", repositoryUrl := "" }
    else none

/-- C6 counterexample: with input ["a", "b"] and a checker that drops
"a", the report's only entry has rank 1 but its package "b" sits at
1-based position 2 of the input list, so "rank equals 1-based position
in the input package list" fails. -/
theorem claim_C6_counterexample :
    ¬ (∀ p ∈ (buildReport (scheduleResults exChecker6 ["a", "b"])).packages,
        ["a", "b"].get? (p.rank - 1) = some p.package) := by
  decide

/-- C6 (amended): ranks are 1-based positions in the collected
(post-filter) record list — entry k has rank k+1 — the entries' package
names are exactly the collected records' names in order, and when the
checker preserves names the report order is a subsequence of the input
order (no reordering after attestation lookup). -/
theorem claim_C6_amended {α : Type} (l : List α)
    (checker : α → Option AttestationResult) (nameOf : α → String) :
    (∀ k (h : k < ((buildReport (scheduleResults checker l)).packages).length),
      (((buildReport (scheduleResults checker l)).packages).get ⟨k, h⟩).rank = k + 1) ∧
    ((buildReport (scheduleResults checker l)).packages).map ReportEntry.package
      = (scheduleResults checker l).map AttestationResult.name ∧
    ((∀ x r, checker x = some r → r.name = nameOf x) →
      List.Sublist
        (((buildReport (scheduleResults checker l)).packages).map ReportEntry.package)
        (l.map nameOf)) := by
  refine ⟨?_, ?_, ?_⟩
  · intro k h
    have := buildPackagesGo_get_rank (scheduleResults checker l) 0 k
      (by simpa [buildReport] using h)
    simpa [buildReport] using this
  · simp [buildReport, buildPackagesGo_map_package]
  · intro hname
    rw [show ((buildReport (scheduleResults checker l)).packages).map ReportEntry.package
          = (scheduleResults checker l).map AttestationResult.name by
        simp [buildReport, buildPackagesGo_map_package],
      scheduleResults_eq_filterMap]
    exact filterMap_name_sublist checker nameOf hname l

/-- C6 witness: for the concrete input ["a", "b"] and the example
checker the amended statement instantiates — names match the collected
records and form a subsequence of the input. -/
theorem claim_C6_witness :
    ((buildReport (scheduleResults exChecker6 ["a", "b"])).packages).map ReportEntry.package
      = (scheduleResults exChecker6 ["a", "b"]).map AttestationResult.name ∧
    List.Sublist
      (((buildReport (scheduleResults exChecker6 ["a", "b"])).packages).map ReportEntry.package)
      (["a", "b"].map id) := by
  refine ⟨(claim_C6_amended ["a", "b"] exChecker6 id).2.1,
          (claim_C6_amended ["a", "b"] exChecker6 id).2.2 ?_⟩
  intro x r h
  cases hb : (x == "b") with
  | false => simp [exChecker6, hb] at h
  | true =>
    have hx : x = "b" := eq_of_beq hb
    simp only [exChecker6, hb, if_true, Option.some.injEq] at h
    rw [← h, hx]
    rfl

/-- The upstream environment seen by the version-scoped pipeline: the
ranking pages and the per-name-and-version registry documents. -/
structure EnvV where
  pages : Nat → List EcosystemsPackage
  versionDoc : String → String → Option NpmVersionMetadata

/-- A ranking item of the full-document variant (only `name` is read). -/
structure PackageListResponse where
  name : String
  deriving DecidableEq

/-- The upstream environment seen by the full-document pipeline. -/
structure EnvF where
  pages : Nat → List PackageListResponse
  fullDoc : String → Option NpmPackageMetadata

/-- The version-scoped `main`: list the top 500 packages, run the batch
scheduler with the version-scoped checker, and build the report with
the `new Date().toISOString()` timestamp `now`. -/
def runPipelineV (env : EnvV) (now : String) : FullReport :=
  buildFullReport now
    (scheduleResults (fetchPackageAttestationV env.versionDoc)
      (fetchTopNpmPackages env.pages 500).1)

/-- The full-document `main`.  (The source maps each ranking page to its
names inside the page loop; mapping the page function first is
observationally identical since the loop only reads lengths and
items.) -/
def runPipelineFull (env : EnvF) (now : String) : FullReport :=
  buildFullReport now
    (scheduleResults (fetchPackageAttestationFull env.fullDoc)
      (fetchTopNpmPackages (fun p => (env.pages p).map PackageListResponse.name) 500).1)

/-- C9: the report is a deterministic function of the upstream
responses: running either pipeline variant twice against the same
environment yields identical summaries and package arrays — only
`generated_at` (the injected clock value) can differ. -/
theorem claim_C9 (envV : EnvV) (envF : EnvF) (t1 t2 : String) :
    ((runPipelineV envV t1).summary = (runPipelineV envV t2).summary ∧
     (runPipelineV envV t1).packages = (runPipelineV envV t2).packages) ∧
    ((runPipelineFull envF t1).summary = (runPipelineFull envF t2).summary ∧
     (runPipelineFull envF t1).packages = (runPipelineFull envF t2).packages) :=
  ⟨⟨rfl, rfl⟩, ⟨rfl, rfl⟩⟩

/-- The `x || ""` idiom yields the empty string or the wrapped value. -/
theorem jsOrEmpty_cases (o : Option String) :
    jsOrEmpty o = "" ∨ o = some (jsOrEmpty o) := by
  cases o with
  | none => exact Or.inl rfl
  | some s => exact Or.inr rfl

/-- C8: every record emitted by either checker strategy has all six
fields defined, each either the empty string (normalizing an absent or
null upstream value) or a value taken verbatim from the upstream
metadata; and every report entry copies its string fields verbatim from
some collected record. -/
theorem claim_C8 :
    (∀ (fetchDoc : String → String → Option NpmVersionMetadata)
       (pkg : EcosystemsPackage) (r : AttestationResult),
      fetchPackageAttestationV fetchDoc pkg = some r →
      r.name = pkg.name ∧
      (r.version = "" ∨ pkg.latest_release_number = some r.version) ∧
      (r.lastUploaded = "" ∨
        pkg.latest_release_published_at = some r.lastUploaded) ∧
      (r.attestationsUrl = "" ∨ ∃ doc, fetchDoc pkg.name r.version = some doc ∧
        (doc.dist.bind NpmDist.attestations).map NpmAttestations.url
          = some r.attestationsUrl) ∧
      (r.trustedPublisherId = "" ∨ ∃ doc, fetchDoc pkg.name r.version = some doc ∧
        (doc.npmUser.bind NpmUser.trustedPublisher).map TrustedPublisher.id
          = some r.trustedPublisherId) ∧
      (r.repositoryUrl = "" ∨ pkg.repository_url = some r.repositoryUrl)) ∧
    (∀ (fetchFull : String → Option NpmPackageMetadata)
       (packageName : String) (r : AttestationResult),
      fetchPackageAttestationFull fetchFull packageName = some r →
      r.name = packageName ∧
      (∃ doc dt, fetchFull packageName = some doc ∧ doc.distTags = some dt ∧
        dt.latest = r.version) ∧
      (r.lastUploaded = "" ∨ ∃ doc, fetchFull packageName = some doc ∧
        (doc.time.getD []).lookup r.version = some r.lastUploaded) ∧
      (r.attestationsUrl = "" ∨ ∃ doc vd, fetchFull packageName = some doc ∧
        doc.versions.lookup r.version = some vd ∧
        (vd.dist.bind NpmDist.attestations).map NpmAttestations.url
          = some r.attestationsUrl) ∧
      (r.trustedPublisherId = "" ∨ ∃ doc vd, fetchFull packageName = some doc ∧
        doc.versions.lookup r.version = some vd ∧
        (vd.npmUser.bind NpmUser.trustedPublisher).map TrustedPublisher.id
          = some r.trustedPublisherId) ∧
      (r.repositoryUrl = "" ∨ ∃ doc, fetchFull packageName = some doc ∧
        doc.repository.map Repository.url = some r.repositoryUrl)) ∧
    (∀ (results : List AttestationResult) (p : ReportEntry),
      p ∈ (buildReport results).packages →
      ∃ r, r ∈ results ∧ p.package = r.name ∧ p.version = r.version ∧
        p.lastUploaded = r.lastUploaded ∧ p.attestationsUrl = r.attestationsUrl ∧
        p.trustedPublisherId = r.trustedPublisherId ∧
        p.repositoryUrl = r.repositoryUrl) := by
  refine ⟨?_, ?_, ?_⟩
  · intro fetchDoc pkg r h
    cases hf : jsFalsyStr pkg.latest_release_number with
    | true =>
      simp only [fetchPackageAttestationV, hf, if_true, Option.some.injEq] at h
      subst h
      refine ⟨rfl, Or.inl rfl, jsOrEmpty_cases _, Or.inl rfl, Or.inl rfl,
        jsOrEmpty_cases _⟩
    | false =>
      simp only [fetchPackageAttestationV, hf, Bool.false_eq_true, if_false] at h
      cases hd : fetchDoc pkg.name (pkg.latest_release_number.getD "") with
      | none => rw [hd] at h; exact absurd h (by simp)
      | some versionData =>
        rw [hd] at h
        simp only [Option.some.injEq] at h
        subst h
        refine ⟨rfl, ?_, jsOrEmpty_cases _, ?_, ?_, jsOrEmpty_cases _⟩
        · cases hl : pkg.latest_release_number with
          | none => rw [hl] at hf; simp [jsFalsyStr] at hf
          | some v => exact Or.inr (by simp [hl])
        · rcases jsOrEmpty_cases
            ((versionData.dist.bind NpmDist.attestations).map NpmAttestations.url)
            with he | he
          · exact Or.inl he
          · exact Or.inr ⟨versionData, hd, he⟩
        · rcases jsOrEmpty_cases
            ((versionData.npmUser.bind NpmUser.trustedPublisher).map TrustedPublisher.id)
            with he | he
          · exact Or.inl he
          · exact Or.inr ⟨versionData, hd, he⟩
  · intro fetchFull packageName r h
    cases hfd : fetchFull packageName with
    | none => simp [fetchPackageAttestationFull, hfd] at h
    | some metadata =>
      cases hdt : metadata.distTags with
      | none => simp [fetchPackageAttestationFull, hfd, hdt] at h
      | some dt =>
        cases hemp : dt.latest.data.isEmpty with
        | true => simp [fetchPackageAttestationFull, hfd, hdt, hemp] at h
        | false =>
          cases hlk : List.lookup dt.latest metadata.versions with
          | none => simp [fetchPackageAttestationFull, hfd, hdt, hemp, hlk] at h
          | some versionData =>
            simp only [fetchPackageAttestationFull, hfd, hdt, hemp, hlk,
              Bool.false_eq_true, if_false, Option.some.injEq] at h
            subst h
            refine ⟨rfl, ⟨metadata, dt, rfl, hdt, rfl⟩, ?_, ?_, ?_, ?_⟩
            · rcases jsOrEmpty_cases (List.lookup dt.latest (metadata.time.getD []))
                with he | he
              · exact Or.inl he
              · exact Or.inr ⟨metadata, rfl, he⟩
            · rcases jsOrEmpty_cases
                ((versionData.dist.bind NpmDist.attestations).map NpmAttestations.url)
                with he | he
              · exact Or.inl he
              · exact Or.inr ⟨metadata, versionData, rfl, hlk, he⟩
            · rcases jsOrEmpty_cases
                ((versionData.npmUser.bind NpmUser.trustedPublisher).map TrustedPublisher.id)
                with he | he
              · exact Or.inl he
              · exact Or.inr ⟨metadata, versionData, rfl, hlk, he⟩
            · rcases jsOrEmpty_cases (metadata.repository.map Repository.url)
                with he | he
              · exact Or.inl he
              · exact Or.inr ⟨metadata, rfl, he⟩
  · intro results p hp
    exact buildPackagesGo_mem results 0 p (by simpa [buildReport] using hp)

/-- A version document with an attestation URL and a trusted
publisher. -/
def vdocEx : NpmVersionMetadata :=
  { dist := some { attestations := some { url := "https://registry.npmjs.org/-/npm/v1/attestations/chalk@5.3.0" } }
    npmUser := some { trustedPublisher := some { id := "github-actions" } } }

/-- A version fetcher always returning `vdocEx`. -/
def fetchDocEx : String → String → Option NpmVersionMetadata :=
  fun _ _ => some vdocEx

/-- A fully populated package reference. -/
def pkgEx : EcosystemsPackage :=
  { name := "chalk"
    repository_url := some "git+https://github.com/chalk/chalk.git"
    latest_release_number := some "5.3.0"
    latest_release_published_at := some "2023-06-01T00:00:00.000Z" }

/-- The record the version-scoped checker produces for `pkgEx` against
`fetchDocEx`. -/
def recEx : AttestationResult :=
  { name := "chalk", version := "5.3.0"
    lastUploaded := "2023-06-01T00:00:00.000Z"
    attestationsUrl := "https://registry.npmjs.org/-/npm/v1/attestations/chalk@5.3.0"
    trustedPublisherId := "github-actions"
    repositoryUrl := "git+https://github.com/chalk/chalk.git" }

/-- C8 witness: instantiating the version-scoped part at `pkgEx` and
checking the binder-free field facts. -/
theorem claim_C8_witness :
    recEx.name = pkgEx.name ∧
    (recEx.version = "" ∨ pkgEx.latest_release_number = some recEx.version) ∧
    (recEx.lastUploaded = "" ∨
      pkgEx.latest_release_published_at = some recEx.lastUploaded) ∧
    (recEx.repositoryUrl = "" ∨ pkgEx.repository_url = some recEx.repositoryUrl) := by
  have h := claim_C8.1 fetchDocEx pkgEx recEx (by decide)
  exact ⟨h.1, h.2.1, h.2.2.1, h.2.2.2.2.2⟩

end AWAY
